import Mathlib

/-!
Verification of the math-widget WYSIWYG editor core (src/electron/main.cjs).

The renderer code is shallowly embedded: strings are `List Char`, DOM nodes
are inductive types, and each JS function of interest becomes a Lean
definition with the same name.  The embedding covers:

* the delimiter scanner of `runMathPass` (the regex
  `(\$\$([\s\S]+?)\$\$)|(\$([^$\n]+?)\$)` applied in an exec loop),
* `createMathToken` / `mathRawForToken` (widget raw forms),
* `expandMathTokenWithOffset` / `expandMathTokenForBoundaryEdit`,
* `deleteCharInTextNode` / `editAdjacentMathTokenWithDelete`,
* `adjacentSignificantSibling` / `adjacentMathToken`,
* `mergeWithNextEditorBlock` / `mergeWithPreviousEditorBlock`,
* the keydown dispatch order,
* the export substitution of `exportMarkdown` and the turndown rule,
* the preview-panel placement arithmetic of `updateMathPreview`.

Out of model scope (never reached by the claims): code/pre exclusion zones of
the tree walker, math tokens sitting directly under the editor root, carets in
stray text children of the editor root, and the KaTeX renderer itself.
-/

namespace TyporaClone

/-- Characters of a string literal, as a list. -/
def str (s : String) : List Char := s.data

/-- JS `String.prototype.trim` whitespace test, restricted to the ASCII
whitespace characters plus NBSP (the full JS set contains further Unicode
space characters, none of which occur in this development). -/
def isJsWhitespace (c : Char) : Bool :=
  c = ' ' || c = '\t' || c = '\n' || c = '\r' || c = '\x0b' || c = '\x0c' || c = ' '

/-- JS `String.prototype.trim`: drop whitespace from both ends. -/
def trim (l : List Char) : List Char :=
  (((l.dropWhile isJsWhitespace).reverse).dropWhile isJsWhitespace).reverse

/-- An inline node of a block: a DOM text node, or a rendered math widget
(a `span.math-token` carrying `data-tex` / `data-display`). -/
inductive Inline where
  | itext (s : List Char)
  | itoken (tex : List Char) (display : Bool)
deriving DecidableEq, Repr

/-- Non-greedy search for the closing `$$` of the block alternative
`\$\$([\s\S]+?)\$\$`: given the text after the opening `$$`, return the
shortest non-empty content followed by `$$`, and the remaining tail.
Backtracking tries content length 1 first and extends one character at a
time, so the first position (at or after index 1) where two `$` appear in a
row closes the match. -/
def chopBlock : List Char → Option (List Char × List Char)
  | c :: d :: e :: rest =>
    if d = '$' ∧ e = '$' then some ([c], rest)
    else (chopBlock (d :: e :: rest)).map (fun p => (c :: p.1, p.2))
  | _ => none

/-- Non-greedy search for the closing `$` of the inline alternative
`\$([^$\n]+?)\$`: given the text after the opening `$`, return the shortest
non-empty content made of characters other than `$` and newline, followed
by `$`, and the remaining tail. -/
def chopInline : List Char → Option (List Char × List Char)
  | c :: d :: rest =>
    if c = '$' ∨ c = '\n' then none
    else if d = '$' then some ([c], rest)
    else (chopInline (d :: rest)).map (fun p => (c :: p.1, p.2))
  | _ => none

/-- One attempt of the scanner regex at the current position: the block
alternative `\$\$…\$\$` is tried before the inline alternative `\$…\$`.
Returns `(isBlock, content, tail)` on success.  When the text starts with
`$$` and the block alternative fails, the whole attempt fails: the inline
alternative would need its first content character to be the second `$`,
which the class `[^$\n]` rejects. -/
def tryMathMatch : List Char → Option (Bool × List Char × List Char)
  | c :: d :: rest =>
    if c = '$' then
      if d = '$' then (chopBlock rest).map (fun p => (true, p.1, p.2))
      else (chopInline (d :: rest)).map (fun p => (false, p.1, p.2))
    else none
  | _ => none

/-- `match[0]` of a scanner match: the matched text including delimiters. -/
def matchedText (isBlock : Bool) (content : List Char) : List Char :=
  if isBlock then '$' :: '$' :: (content ++ ['$', '$'])
  else '$' :: (content ++ ['$'])

/-- Emit the pending unmatched characters (accumulated in reverse) as one
text node, mirroring `value.slice(last, match.index)` in `runMathPass`. -/
def flushPending (pending : List Char) (segs : List Inline) : List Inline :=
  if pending.isEmpty then segs else Inline.itext pending.reverse :: segs

/-- The exec loop of `runMathPass` over one text node, fuelled (the fuel is
an upper bound on the number of steps; `scanSegs` supplies `l.length`, which
always suffices since every step consumes at least one character).  A match
whose trimmed content is non-empty becomes a widget; otherwise the whole
matched text is re-emitted literally as its own text node. -/
def scanAuxF : Nat → List Char → List Char → List Inline
  | _, pending, [] => flushPending pending []
  | 0, pending, l => flushPending (l.reverse ++ pending) []
  | fuel + 1, pending, c :: rest =>
    match tryMathMatch (c :: rest) with
    | some (isBlock, content, tail) =>
      let tex := trim content
      if tex.isEmpty then
        flushPending pending (Inline.itext (matchedText isBlock content) :: scanAuxF fuel [] tail)
      else
        flushPending pending (Inline.itoken tex isBlock :: scanAuxF fuel [] tail)
    | none => scanAuxF fuel (c :: pending) rest

/-- The delimiter scanner: the node sequence `runMathPass` substitutes for a
text node with the given content. -/
def scanSegs (l : List Char) : List Inline := scanAuxF l.length [] l

/-- `mathRawForToken`: the raw delimited text form of a widget. -/
def mathRawForToken (tex : List Char) (display : Bool) : List Char :=
  if display then '$' :: '$' :: (tex ++ ['$', '$'])
  else '$' :: (tex ++ ['$'])

/-- `delimiterSize` field of `mathRawForToken`. -/
def delimiterSize (display : Bool) : Nat := if display then 2 else 1

/-! ## Editor tree, caret, and key handlers -/

/-- A direct child of the editor surface: a stray text node, or a block
element with its inline children.  (A math-token span sitting directly under
the editor root is possible in the DOM but outside this model; no claim
touches that situation.) -/
inductive ENode where
  | etext (s : List Char)
  | eblock (children : List Inline)
deriving DecidableEq, Repr

/-- The container of a collapsed DOM range inside the editor: a text child
`n` of block `b`, the block element `b` itself, or the editor root. -/
inductive CaretContainer where
  | textNode (b : Nat) (n : Nat)
  | blockElem (b : Nat)
  | editorRoot
deriving DecidableEq, Repr

/-- A collapsed selection range `(startContainer, startOffset)`. -/
structure Caret where
  container : CaretContainer
  offset : Nat
deriving DecidableEq, Repr

/-- The editor surface: its child nodes and the collapsed selection. -/
structure EState where
  tree : List ENode
  caret : Caret
deriving DecidableEq, Repr

/-- Direction argument (`"next"` / `"prev"`) of the sibling walkers. -/
inductive Dir where
  | next
  | prev
deriving DecidableEq, Repr

/-- `isMathTokenNode` on an inline node. -/
def isMathTokenInline : Inline → Bool
  | Inline.itoken _ _ => true
  | _ => false

/-- The skip test of `adjacentSignificantSibling`: a text node whose value
has zero length (note: length, not trimmed length). -/
def isEmptyTextInline : Inline → Bool
  | Inline.itext s => s.isEmpty
  | _ => false

/-- Index of the first node in the list that is not a zero-length text node. -/
def firstSignificantIdx : List Inline → Option Nat
  | [] => none
  | x :: rest =>
    if isEmptyTextInline x then (firstSignificantIdx rest).map (· + 1) else some 0

/-- `adjacentSignificantSibling(node, "next")` expressed on the sibling list:
index of the first following sibling that is not a zero-length text node. -/
def nextSigSibIdx (children : List Inline) (i : Nat) : Option Nat :=
  (firstSignificantIdx (children.drop (i + 1))).map (· + (i + 1))

/-- `adjacentSignificantSibling(node, "prev")`: index of the nearest
preceding sibling that is not a zero-length text node. -/
def prevSigSibIdx (children : List Inline) (i : Nat) : Option Nat :=
  (firstSignificantIdx ((children.take i).reverse)).map (fun k => i - 1 - k)

/-- `adjacentMathToken(range, direction)`: the adjacent widget, reported as
`(block index, child index, tex, display)`.  For a text-node caret the
caret must sit exactly at the text's start/end edge and zero-length sibling
text nodes are skipped; for an element-anchored caret the child at the
indicated offset is inspected directly. -/
def adjacentMathToken (tree : List ENode) (caret : Caret) (dir : Dir) :
    Option (Nat × Nat × List Char × Bool) :=
  match caret.container with
  | CaretContainer.textNode b n =>
    match tree[b]? with
    | some (ENode.eblock cs) =>
      match cs[n]? with
      | some (Inline.itext s) =>
        let boundary := if dir = Dir.next then s.length else 0
        if caret.offset = boundary then
          match (if dir = Dir.next then nextSigSibIdx cs n else prevSigSibIdx cs n) with
          | some j =>
            match cs[j]? with
            | some (Inline.itoken tex d) => some (b, j, tex, d)
            | _ => none
          | none => none
        else none
      | _ => none
    | _ => none
  | CaretContainer.blockElem b =>
    match tree[b]? with
    | some (ENode.eblock cs) =>
      match (if dir = Dir.next then some caret.offset
             else if 0 < caret.offset then some (caret.offset - 1) else none) with
      | some j =>
        match cs[j]? with
        | some (Inline.itoken tex d) => some (b, j, tex, d)
        | _ => none
      | none => none
    | _ => none
  | CaretContainer.editorRoot => none

/-- Replace inline child `j` of block `b`. -/
def setInlineChild (tree : List ENode) (b j : Nat) (x : Inline) : List ENode :=
  match tree[b]? with
  | some (ENode.eblock cs) => tree.set b (ENode.eblock (cs.set j x))
  | _ => tree

/-- The caret-offset clamp of `expandMathTokenWithOffset`:
`Math.max(0, Math.min(offset, raw.length))`. -/
def boundedOffset (rawLen : Nat) (offset : Int) : Nat :=
  (max 0 (min offset (rawLen : Int))).toNat

/-- `expandMathTokenWithOffset`: collapse the widget at `(b, j)` to a text
node holding its raw delimited form and place the caret inside it at the
clamped offset. -/
def expandMathTokenWithOffset (tree : List ENode) (b j : Nat)
    (tex : List Char) (display : Bool) (offset : Int) : EState :=
  let raw := mathRawForToken tex display
  { tree := setInlineChild tree b j (Inline.itext raw)
    caret := ⟨CaretContainer.textNode b j, boundedOffset raw.length offset⟩ }

/-- Entry side of a boundary-navigation collapse. -/
inductive FromSide where
  | fromLeft
  | fromRight
deriving DecidableEq, Repr

/-- `expandMathTokenForBoundaryEdit`: offset just past the opening delimiter
when entering from the left, just before the closing delimiter when entering
from the right. -/
def expandMathTokenForBoundaryEdit (tree : List ENode) (b j : Nat)
    (tex : List Char) (display : Bool) (side : FromSide) : EState :=
  let raw := mathRawForToken tex display
  let offset : Int :=
    match side with
    | FromSide.fromLeft => (delimiterSize display : Int)
    | FromSide.fromRight => (raw.length : Int) - (delimiterSize display : Int)
  expandMathTokenWithOffset tree b j tex display offset

/-- `deleteCharInTextNode` on the text child `n` of block `b`: remove one
character before (backward) or after (forward) `offset`, leaving the caret at
the deletion point; out-of-range offsets are no-ops. -/
def deleteCharInTextNode (tree : List ENode) (b n : Nat) (offset : Nat)
    (backward : Bool) : EState :=
  match tree[b]? with
  | some (ENode.eblock cs) =>
    match cs[n]? with
    | some (Inline.itext value) =>
      if backward then
        if offset = 0 then ⟨tree, ⟨CaretContainer.textNode b n, offset⟩⟩
        else
          ⟨setInlineChild tree b n (Inline.itext (value.eraseIdx (offset - 1))),
            ⟨CaretContainer.textNode b n, offset - 1⟩⟩
      else
        if value.length ≤ offset then ⟨tree, ⟨CaretContainer.textNode b n, offset⟩⟩
        else
          ⟨setInlineChild tree b n (Inline.itext (value.eraseIdx offset)),
            ⟨CaretContainer.textNode b n, offset⟩⟩
    | _ => ⟨tree, ⟨CaretContainer.textNode b n, offset⟩⟩
  | _ => ⟨tree, ⟨CaretContainer.textNode b n, offset⟩⟩

/-- `editAdjacentMathTokenWithDelete`: on Delete/Backspace next to a widget,
collapse it (caret at the near end of the raw text) and delete one character
there.  Returns `none` when no widget is adjacent (the handler then falls
through to block merging). -/
def editAdjacentMathTokenWithDelete (isBackspace : Bool) (st : EState) :
    Option EState :=
  let dir := if isBackspace then Dir.prev else Dir.next
  match adjacentMathToken st.tree st.caret dir with
  | none => none
  | some (b, j, tex, d) =>
    let raw := mathRawForToken tex d
    let st1 := expandMathTokenWithOffset st.tree b j tex d
      (if isBackspace then (raw.length : Int) else 0)
    some (deleteCharInTextNode st1.tree b j
      (if isBackspace then raw.length else 0) isBackspace)

/-- Block-level blank test of `nextEditorChild` / `previousEditorChild`:
a text child whose trimmed value is empty. -/
def isBlankENode : ENode → Bool
  | ENode.etext s => (trim s).isEmpty
  | _ => false

/-- Index of the first editor child in the list that is not blank text. -/
def firstNonBlankIdx : List ENode → Option Nat
  | [] => none
  | x :: rest =>
    if isBlankENode x then (firstNonBlankIdx rest).map (· + 1) else some 0

/-- `nextEditorChild`: nearest following editor child that is not
whitespace-only text. -/
def nextEditorChildIdx (tree : List ENode) (i : Nat) : Option Nat :=
  (firstNonBlankIdx (tree.drop (i + 1))).map (· + (i + 1))

/-- `previousEditorChild`: nearest preceding editor child that is not
whitespace-only text. -/
def previousEditorChildIdx (tree : List ENode) (i : Nat) : Option Nat :=
  (firstNonBlankIdx ((tree.take i).reverse)).map (fun k => i - 1 - k)

/-- `nearestEditorChild` of the caret's start container. -/
def nearestEditorChildIdx (caret : Caret) : Option Nat :=
  match caret.container with
  | CaretContainer.textNode b _ => some b
  | CaretContainer.blockElem b => some b
  | CaretContainer.editorRoot => none

/-- Result of a block-merge handler: whether it reported the event handled,
the editor children afterwards, the caret afterwards, and whether a
persistence save was scheduled. -/
structure MergeResult where
  handled : Bool
  tree : List ENode
  caret : Caret
  saveScheduled : Bool
deriving DecidableEq, Repr

/-- `mergeWithNextEditorBlock` (Delete at block end).  DOM boundary-point
equality makes `isRangeAtContainerEnd` true exactly when the range is
`(block, childCount)`; an empty next block element is removed while still
returning "not handled". -/
def mergeWithNextEditorBlock (st : EState) : MergeResult :=
  let unchanged : MergeResult := ⟨false, st.tree, st.caret, false⟩
  match nearestEditorChildIdx st.caret with
  | none => unchanged
  | some i =>
    match st.tree[i]? with
    | some (ENode.eblock cur) =>
      if st.caret = ⟨CaretContainer.blockElem i, cur.length⟩ then
        match nextEditorChildIdx st.tree i with
        | none => unchanged
        | some j =>
          match st.tree[j]? with
          | some (ENode.eblock nxt) =>
            if nxt.isEmpty then ⟨false, st.tree.eraseIdx j, st.caret, false⟩
            else
              ⟨true, (st.tree.set i (ENode.eblock (cur ++ nxt))).eraseIdx j,
                ⟨CaretContainer.blockElem i, cur.length⟩, true⟩
          | _ => unchanged
      else unchanged
    | _ => unchanged

/-- `mergeWithPreviousEditorBlock` (Backspace at block start): append the
current block's children to the previous non-blank sibling element, remove
the emptied block, and place the caret just after the previous block's old
last child (or at its start — before the element itself when nothing at all
remains inside it). -/
def mergeWithPreviousEditorBlock (st : EState) : MergeResult :=
  let unchanged : MergeResult := ⟨false, st.tree, st.caret, false⟩
  match nearestEditorChildIdx st.caret with
  | none => unchanged
  | some i =>
    match st.tree[i]? with
    | some (ENode.eblock cur) =>
      if st.caret = ⟨CaretContainer.blockElem i, 0⟩ then
        match previousEditorChildIdx st.tree i with
        | none => unchanged
        | some j =>
          match st.tree[j]? with
          | some (ENode.eblock prev) =>
            let newTree := (st.tree.set j (ENode.eblock (prev ++ cur))).eraseIdx i
            let caret' : Caret :=
              if prev.isEmpty then
                if cur.isEmpty then ⟨CaretContainer.editorRoot, j⟩
                else ⟨CaretContainer.blockElem j, 0⟩
              else ⟨CaretContainer.blockElem j, prev.length⟩
            ⟨true, newTree, caret', true⟩
          | _ => unchanged
      else unchanged
    | _ => unchanged

/-- The keyboard keys the keydown handler distinguishes. -/
inductive Key where
  | delete
  | backspace
  | arrowLeft
  | arrowRight
  | other
deriving DecidableEq, Repr

/-- Which branch of the keydown handler consumed the event. -/
inductive KeyOutcome where
  | mathEdit
  | mergedNext
  | mergedPrev
  | arrowCollapse
  | unhandled
deriving DecidableEq, Repr

/-- `handleArrowAcrossMathToken`: collapse the adjacent widget, entering
from the left when moving right and from the right when moving left. -/
def handleArrowAcrossMathToken (key : Key) (st : EState) : Option EState :=
  if key = Key.arrowRight ∨ key = Key.arrowLeft then
    let dir := if key = Key.arrowRight then Dir.next else Dir.prev
    match adjacentMathToken st.tree st.caret dir with
    | none => none
    | some (b, j, tex, d) =>
      let side := if dir = Dir.next then FromSide.fromLeft else FromSide.fromRight
      some (expandMathTokenForBoundaryEdit st.tree b j tex d side)
  else none

/-- The editor's keydown handler: widget-adjacent Delete/Backspace editing
first, then Delete block merge, then Backspace block merge, then arrow
traversal.  The returned state threads any tree mutation, including the
empty-next-block removal a "not handled" Delete merge can perform. -/
def keydown (key : Key) (st : EState) : KeyOutcome × EState :=
  if key = Key.delete ∨ key = Key.backspace then
    match editAdjacentMathTokenWithDelete (key = Key.backspace) st with
    | some st' => (KeyOutcome.mathEdit, st')
    | none =>
      if key = Key.delete then
        let r := mergeWithNextEditorBlock st
        if r.handled then (KeyOutcome.mergedNext, ⟨r.tree, r.caret⟩)
        else (KeyOutcome.unhandled, ⟨r.tree, r.caret⟩)
      else
        let r := mergeWithPreviousEditorBlock st
        if r.handled then (KeyOutcome.mergedPrev, ⟨r.tree, r.caret⟩)
        else (KeyOutcome.unhandled, ⟨r.tree, r.caret⟩)
  else
    match handleArrowAcrossMathToken key st with
    | some st' => (KeyOutcome.arrowCollapse, st')
    | none => (KeyOutcome.unhandled, st)

/-! ## Export substitution and preview placement -/

/-- The turndown rule `mathToken` supplied to the markdown serializer. -/
def turndownMathRuleReplacement (tex : List Char) (display : Bool) : List Char :=
  if display then str "\n\n$$\n" ++ tex ++ str "\n$$\n\n"
  else '$' :: (tex ++ ['$'])

/-- The substitution `exportMarkdown` itself performs on the cloned tree
before invoking the serializer: every widget is replaced by a plain text
node `$$tex$$` (display) or `$tex$` (inline). -/
def exportTokenReplacement (tex : List Char) (display : Bool) : List Char :=
  if display then '$' :: '$' :: (tex ++ ['$', '$'])
  else '$' :: (tex ++ ['$'])

/-- Effect of `exportMarkdown`'s pre-serialization pass on one inline node. -/
def exportReplaceInline : Inline → Inline
  | Inline.itoken tex d => Inline.itext (exportTokenReplacement tex d)
  | x => x

/-- Effect of `exportMarkdown`'s pre-serialization pass on a block. -/
def exportPrepareBlock (cs : List Inline) : List Inline :=
  cs.map exportReplaceInline

/-- Horizontal preview-panel position of `updateMathPreview`:
`Math.max(8, Math.min(caretRect.left, window.innerWidth - panelWidth - 8))`.
(Coordinates are modelled as integers; the computation uses only
addition, subtraction, `min` and `max`.) -/
def previewLeft (caretLeft innerWidth panelWidth : Int) : Int :=
  max 8 (min caretLeft (innerWidth - panelWidth - 8))

/-- Vertical preview-panel position of `updateMathPreview`: above the caret
rectangle with a 10-unit gap, flipping below (12-unit gap, additionally
clamped to an 8-unit bottom margin) when fewer than 8 units remain above. -/
def previewTop (caretTop caretBottom innerHeight panelHeight : Int) : Int :=
  let t := caretTop - panelHeight - 10
  if t < 8 then min (innerHeight - panelHeight - 8) (caretBottom + 12) else t

/-! ## Supporting lemmas -/

theorem dropWhile_idem {α : Type} (p : α → Bool) (l : List α) :
    (l.dropWhile p).dropWhile p = l.dropWhile p := by
  induction l with
  | nil => rfl
  | cons c rest ih =>
    by_cases h : p c
    · simpa [List.dropWhile_cons, h] using ih
    · simp [List.dropWhile_cons, h]

theorem dropWhile_head?_not {α : Type} (p : α → Bool) (l : List α) :
    ∀ a ∈ (l.dropWhile p).head?, p a = false := by
  induction l with
  | nil => simp
  | cons c rest ih =>
    by_cases h : p c
    · simpa [List.dropWhile_cons, h] using ih
    · simp [List.dropWhile_cons, h]

theorem dropWhile_eq_self_of_head {α : Type} (p : α → Bool) (l : List α)
    (h : ∀ a ∈ l.head?, p a = false) : l.dropWhile p = l := by
  cases l with
  | nil => rfl
  | cons c rest => simp [List.dropWhile_cons, h c (by simp)]

theorem getLast?_dropWhile_or {α : Type} (p : α → Bool) (l : List α) :
    (l.dropWhile p).getLast? = l.getLast? ∨ l.dropWhile p = [] := by
  induction l with
  | nil => simp
  | cons c rest ih =>
    by_cases h : p c
    · rw [List.dropWhile_cons]
      simp only [h, if_true]
      cases rest with
      | nil => right; rfl
      | cons d rest2 =>
        rcases ih with h2 | h2
        · left; rw [h2, List.getLast?_cons_cons]
        · right; exact h2
    · left; simp [List.dropWhile_cons, h]

/-- JS `trim` is idempotent. -/
theorem trim_trim (l : List Char) : trim (trim l) = trim l := by
  have h1 : (trim l).dropWhile isJsWhitespace = trim l := by
    apply dropWhile_eq_self_of_head
    intro a ha
    unfold trim at ha
    rw [List.head?_reverse] at ha
    rcases getLast?_dropWhile_or isJsWhitespace
        ((l.dropWhile isJsWhitespace).reverse) with h | h
    · rw [h, List.getLast?_reverse] at ha
      exact dropWhile_head?_not isJsWhitespace l a ha
    · rw [h] at ha
      simp at ha
  conv_lhs => rw [trim, h1]
  rw [trim, List.reverse_reverse, dropWhile_idem]

theorem mem_flushPending {x : Inline} {p : List Char} {segs : List Inline}
    (h : x ∈ flushPending p segs) : x ∈ segs ∨ ∃ s, x = Inline.itext s := by
  unfold flushPending at h
  split at h
  · exact Or.inl h
  · rcases List.mem_cons.mp h with h2 | h2
    · exact Or.inr ⟨p.reverse, h2⟩
    · exact Or.inl h2

theorem scanAuxF_nil (fuel : Nat) (p : List Char) :
    scanAuxF fuel p [] = flushPending p [] := by
  cases fuel <;> rfl

theorem scanAuxF_step_match (fuel : Nat) (pending : List Char) (c : Char)
    (rest : List Char) (b : Bool) (content tail : List Char)
    (h : tryMathMatch (c :: rest) = some (b, content, tail)) :
    scanAuxF (fuel + 1) pending (c :: rest) =
      (if (trim content).isEmpty then
        flushPending pending
          (Inline.itext (matchedText b content) :: scanAuxF fuel [] tail)
      else
        flushPending pending
          (Inline.itoken (trim content) b :: scanAuxF fuel [] tail)) := by
  simp [scanAuxF, h]

theorem scanAuxF_step_none (fuel : Nat) (pending : List Char) (c : Char)
    (rest : List Char) (h : tryMathMatch (c :: rest) = none) :
    scanAuxF (fuel + 1) pending (c :: rest) = scanAuxF fuel (c :: pending) rest := by
  simp [scanAuxF, h]

/-- Every widget the scanner emits has fixed-point-of-`trim`, non-empty tex. -/
theorem scanAuxF_token_trimmed :
    ∀ (fuel : Nat) (pending l tex : List Char) (d : Bool),
      Inline.itoken tex d ∈ scanAuxF fuel pending l → trim tex = tex ∧ tex ≠ [] := by
  intro fuel
  induction fuel with
  | zero =>
    intro pending l tex d h
    exfalso
    cases l with
    | nil =>
      rcases mem_flushPending h with h2 | ⟨s, h2⟩ <;> simp_all
    | cons c rest =>
      rcases mem_flushPending h with h2 | ⟨s, h2⟩ <;> simp_all
  | succ n ih =>
    intro pending l tex d h
    cases l with
    | nil =>
      exfalso
      rcases mem_flushPending h with h2 | ⟨s, h2⟩ <;> simp_all
    | cons c rest =>
      cases htm : tryMathMatch (c :: rest) with
      | none =>
        rw [scanAuxF_step_none n pending c rest htm] at h
        exact ih _ _ _ _ h
      | some r =>
        obtain ⟨b, content, tail⟩ := r
        rw [scanAuxF_step_match n pending c rest b content tail htm] at h
        by_cases hte : (trim content).isEmpty
        · rw [if_pos hte] at h
          rcases mem_flushPending h with h2 | ⟨s, h2⟩
          · rcases List.mem_cons.mp h2 with h3 | h3
            · exact absurd h3 (by simp)
            · exact ih _ _ _ _ h3
          · exact absurd h2 (by simp)
        · rw [if_neg hte] at h
          rcases mem_flushPending h with h2 | ⟨s, h2⟩
          · rcases List.mem_cons.mp h2 with h3 | h3
            · have hc : tex = trim content := by
                injection h3 with h4 h5
              constructor
              · rw [hc, trim_trim]
              · rw [hc]
                intro hcon
                rw [hcon] at hte
                exact hte rfl
            · exact ih _ _ _ _ h3
          · exact absurd h2 (by simp)

theorem chopInline_mem (l : List Char) :
    ∀ content tail, chopInline l = some (content, tail) →
      ∀ c ∈ content, c ≠ '$' ∧ c ≠ '\n' := by
  induction l with
  | nil => intro content tail h; exact absurd h (by simp [chopInline])
  | cons c rest ih =>
    intro content tail h x hx
    cases rest with
    | nil => exact absurd h (by simp [chopInline])
    | cons d rest2 =>
      rw [chopInline] at h
      by_cases h1 : c = '$' ∨ c = '\n'
      · rw [if_pos h1] at h
        exact absurd h (by simp)
      · rw [if_neg h1] at h
        push_neg at h1
        by_cases h2 : d = '$'
        · rw [if_pos h2] at h
          injection h with h3
          injection h3 with h4 h5
          rw [← h4] at hx
          rcases List.mem_singleton.mp hx with h6
          rw [h6]
          exact h1
        · rw [if_neg h2] at h
          cases h7 : chopInline (d :: rest2) with
          | none => rw [h7] at h; exact absurd h (by simp)
          | some q =>
            obtain ⟨content2, tail2⟩ := q
            rw [h7] at h
            simp only [Option.map_some'] at h
            injection h with h3
            injection h3 with h4 h5
            rw [← h4] at hx
            rcases List.mem_cons.mp hx with h6 | h6
            · rw [h6]; exact h1
            · exact ih content2 tail2 h7 x h6

theorem chopInline_append (tex : List Char) (hne : tex ≠ [])
    (hc : ∀ c ∈ tex, c ≠ '$' ∧ c ≠ '\n') :
    chopInline (tex ++ ['$']) = some (tex, []) := by
  induction tex with
  | nil => exact absurd rfl hne
  | cons c t ih =>
    have h1 := hc c (by simp)
    cases t with
    | nil =>
      simp [chopInline, h1.1, h1.2]
    | cons c2 t2 =>
      have h2 := hc c2 (by simp)
      have hs : (c :: c2 :: t2) ++ ['$'] = c :: c2 :: (t2 ++ ['$']) := rfl
      rw [hs, chopInline]
      rw [if_neg (by simp [h1.1, h1.2])]
      rw [if_neg h2.1]
      rw [show c2 :: (t2 ++ ['$']) = (c2 :: t2) ++ ['$'] from rfl]
      rw [ih (by simp) (fun x hx => hc x (List.mem_cons_of_mem c hx))]
      rfl

theorem chopBlock_append (tex : List Char) (hne : tex ≠ []) (hd : '$' ∉ tex) :
    chopBlock (tex ++ ['$', '$']) = some (tex, []) := by
  induction tex with
  | nil => exact absurd rfl hne
  | cons c t ih =>
    have hdt : '$' ∉ t := fun hx => hd (List.mem_cons_of_mem c hx)
    cases t with
    | nil =>
      simp [chopBlock]
    | cons c2 t2 =>
      have h2 : c2 ≠ '$' := by
        intro h
        exact hd (by rw [← h]; simp)
      cases t2 with
      | nil =>
        have hs : (c :: [c2]) ++ ['$', '$'] = c :: c2 :: '$' :: ['$'] := rfl
        rw [hs, chopBlock]
        rw [if_neg (by simp [h2])]
        rw [show (c2 :: '$' :: ['$'] : List Char) = [c2] ++ ['$', '$'] from rfl]
        rw [ih (by simp) hdt]
        rfl
      | cons c3 t3 =>
        have h3 : c3 ≠ '$' := by
          intro h
          exact hd (by rw [← h]; simp)
        have hs : (c :: c2 :: c3 :: t3) ++ ['$', '$'] =
            c :: c2 :: c3 :: (t3 ++ ['$', '$']) := rfl
        rw [hs, chopBlock]
        rw [if_neg (by simp [h2, h3])]
        rw [show c2 :: c3 :: (t3 ++ ['$', '$']) = (c2 :: c3 :: t3) ++ ['$', '$'] from rfl]
        rw [ih (by simp) hdt]
        rfl

theorem tryMathMatch_block (tex : List Char) (hne : tex ≠ []) (hd : '$' ∉ tex) :
    tryMathMatch ('$' :: '$' :: (tex ++ ['$', '$'])) = some (true, tex, []) := by
  rw [tryMathMatch, if_pos rfl, if_pos rfl, chopBlock_append tex hne hd]
  rfl

theorem tryMathMatch_inline (tex : List Char) (hne : tex ≠ [])
    (hc : ∀ c ∈ tex, c ≠ '$' ∧ c ≠ '\n') :
    tryMathMatch ('$' :: (tex ++ ['$'])) = some (false, tex, []) := by
  cases tex with
  | nil => exact absurd rfl hne
  | cons c t =>
    have h1 := hc c (by simp)
    have hs : '$' :: ((c :: t) ++ ['$']) = '$' :: c :: (t ++ ['$']) := rfl
    rw [hs, tryMathMatch, if_pos rfl, if_neg h1.1]
    rw [show c :: (t ++ ['$']) = (c :: t) ++ ['$'] from rfl]
    rw [chopInline_append (c :: t) hne hc]
    rfl

theorem tryMathMatch_inline_no_newline (l content tail : List Char)
    (h : tryMathMatch l = some (false, content, tail)) : '\n' ∉ content := by
  intro hmem
  cases l with
  | nil => exact absurd h (by simp [tryMathMatch])
  | cons c rest =>
    cases rest with
    | nil => exact absurd h (by simp [tryMathMatch])
    | cons d rest2 =>
      rw [tryMathMatch] at h
      by_cases h1 : c = '$'
      · rw [if_pos h1] at h
        by_cases h2 : d = '$'
        · rw [if_pos h2] at h
          cases h3 : chopBlock rest2 with
          | none => rw [h3] at h; exact absurd h (by simp)
          | some q =>
            rw [h3] at h
            simp only [Option.map_some'] at h
            injection h with h4
            exact absurd (congrArg Prod.fst h4) (by simp)
        · rw [if_neg h2] at h
          cases h3 : chopInline (d :: rest2) with
          | none => rw [h3] at h; exact absurd h (by simp)
          | some q =>
            obtain ⟨content2, tail2⟩ := q
            rw [h3] at h
            simp only [Option.map_some'] at h
            injection h with h4
            have h5 : content2 = content := by
              have := congrArg (fun x => x.2.1) h4
              simpa using this
            rw [← h5] at hmem
            exact (chopInline_mem (d :: rest2) content2 tail2 h3 '\n' hmem).2 rfl
      · rw [if_neg h1] at h
        exact absurd h (by simp)

/-- A well-formed widget's raw text rescans to exactly that widget: the tex
must be non-empty, fixed under `trim`, contain no `$`, and (when inline)
contain no newline. -/
theorem scan_mathRaw_wellformed (tex : List Char) (display : Bool) (hne : tex ≠ [])
    (htrim : trim tex = tex) (hd : '$' ∉ tex)
    (hnl : display = false → '\n' ∉ tex) :
    scanSegs (mathRawForToken tex display) = [Inline.itoken tex display] := by
  have htexne : tex.isEmpty = false := by
    cases tex with
    | nil => exact absurd rfl hne
    | cons c t => rfl
  cases display with
  | true =>
    have hraw : mathRawForToken tex true = '$' :: '$' :: (tex ++ ['$', '$']) := by
      rw [mathRawForToken, if_pos rfl]
    have hlen : ('$' :: '$' :: (tex ++ ['$', '$'])).length = (tex.length + 3) + 1 := by
      simp
    rw [hraw]
    rw [scanSegs, hlen]
    rw [scanAuxF_step_match _ _ _ _ _ _ _ (tryMathMatch_block tex hne hd)]
    rw [htrim, htexne, if_neg (by simp)]
    rw [scanAuxF_nil]
    rfl
  | false =>
    have hc : ∀ c ∈ tex, c ≠ '$' ∧ c ≠ '\n' := by
      intro c hx
      constructor
      · intro h; rw [h] at hx; exact hd hx
      · intro h; rw [h] at hx; exact (hnl rfl) hx
    have hraw : mathRawForToken tex false = '$' :: (tex ++ ['$']) := by
      rw [mathRawForToken, if_neg (by simp)]
    have hlen : ('$' :: (tex ++ ['$'])).length = (tex.length + 1) + 1 := by
      simp
    rw [hraw]
    rw [scanSegs, hlen]
    rw [scanAuxF_step_match _ _ _ _ _ _ _ (tryMathMatch_inline tex hne hc)]
    rw [htrim, htexne, if_neg (by simp)]
    rw [scanAuxF_nil]
    rfl

/-! ## Claims about the delimiter scanner -/

/-- C1: the delimiter scanner (the exec loop of `runMathPass`, block
alternative tried before inline at each position, matching non-greedily)
produces exactly the expected matches: an inline match never contains a
newline (the display example's match spans newlines); a match whose trimmed
content is empty is re-emitted as literal text and not converted; scanning
`"$$\n1+1\n$$"` yields exactly one display widget with tex `"1+1"`,
scanning `"$ $"` yields no converted match, and an unterminated `"$x"`
yields no match at all. -/
theorem c1_delimiter_scanner :
    (∀ l content tail : List Char,
        tryMathMatch l = some (false, content, tail) → '\n' ∉ content) ∧
    scanSegs (str "$$\n1+1\n$$") = [Inline.itoken (str "1+1") true] ∧
    scanSegs (str "$ $") = [Inline.itext (str "$ $")] ∧
    scanSegs (str "$x") = [Inline.itext (str "$x")] :=
  ⟨fun l content tail h => tryMathMatch_inline_no_newline l content tail h,
    by decide, by decide, by decide⟩

/-- Witness for C1: the inline-no-newline hypothesis is satisfiable. -/
theorem c1_delimiter_scanner_witness :
    tryMathMatch (str "$x$") = some (false, str "x", []) ∧ '\n' ∉ str "x" :=
  ⟨by decide, c1_delimiter_scanner.1 (str "$x$") (str "x") [] (by decide)⟩

/-- C2 counterexample: collapsing then re-materializing does NOT reproduce
every widget.  The block widget with tex `"a$"` is produced by the scanner
itself (from `"$$a$ $$"`), but its raw form `"$$a$$$"` re-materializes as a
widget with tex `"a"` followed by literal text `"$"`. -/
theorem c2_collapse_rematerialize_counterexample :
    scanSegs (str "$$a$ $$") = [Inline.itoken (str "a$") true] ∧
    mathRawForToken (str "a$") true = str "$$a$$$" ∧
    scanSegs (mathRawForToken (str "a$") true) ≠ [Inline.itoken (str "a$") true] :=
  ⟨by decide, by decide, by decide⟩

/-- C2 (amended): for every widget whose tex is non-empty, fixed under
`trim`, free of `$`, and (for inline widgets) free of newlines, collapsing
to the raw delimited form and immediately re-materializing that raw text
reproduces a widget with identical tex and display flag. -/
theorem c2_collapse_rematerialize_amended (tex : List Char) (display : Bool)
    (hne : tex ≠ []) (htrim : trim tex = tex) (hd : '$' ∉ tex)
    (hnl : display = false → '\n' ∉ tex) :
    scanSegs (mathRawForToken tex display) = [Inline.itoken tex display] :=
  scan_mathRaw_wellformed tex display hne htrim hd hnl

/-- Witness for the amended C2 at tex `"1+1"`, display mode. -/
theorem c2_collapse_rematerialize_witness :
    str "1+1" ≠ [] ∧ trim (str "1+1") = str "1+1" ∧ '$' ∉ str "1+1" ∧
    scanSegs (mathRawForToken (str "1+1") true) = [Inline.itoken (str "1+1") true] :=
  ⟨by decide, by decide, by decide,
    c2_collapse_rematerialize_amended (str "1+1") true (by decide) (by decide)
      (by decide) (by decide)⟩

/-- C10: every widget the scanner converts stores the trimmed expression
content as its (non-empty) tex; consequently `"$ a $"` materializes to a
widget with tex `"a"`, and collapsing that widget yields the strictly
shorter raw text `"$a$"` rather than the originally matched `"$ a $"` —
delimiter-adjacent whitespace is not preserved across a convert/collapse
cycle. -/
theorem c10_trimmed_tex :
    (∀ (l tex : List Char) (d : Bool),
        Inline.itoken tex d ∈ scanSegs l → trim tex = tex ∧ tex ≠ []) ∧
    scanSegs (str "$ a $") = [Inline.itoken (str "a") false] ∧
    mathRawForToken (str "a") false = str "$a$" ∧
    str "$a$" ≠ str "$ a $" ∧
    (str "$a$").length < (str "$ a $").length :=
  ⟨fun l tex d h => scanAuxF_token_trimmed l.length [] l tex d h,
    by decide, by decide, by decide, by decide⟩

/-- Witness for C10: the membership hypothesis is satisfiable. -/
theorem c10_trimmed_tex_witness :
    Inline.itoken (str "z") false ∈ scanSegs (str "$z$") ∧
    trim (str "z") = str "z" ∧ str "z" ≠ [] :=
  ⟨by decide, (c10_trimmed_tex.1 (str "$z$") (str "z") false (by decide)).1,
    (c10_trimmed_tex.1 (str "$z$") (str "z") false (by decide)).2⟩

/-! ## Claims about collapse offsets and widget-adjacent deletion -/

theorem mathRaw_length (tex : List Char) (display : Bool) :
    (mathRawForToken tex display).length = tex.length + 2 * delimiterSize display := by
  cases display <;> simp [mathRawForToken, delimiterSize]

theorem eraseIdx_zero_eq_drop_one (l : List Char) : l.eraseIdx 0 = l.drop 1 := by
  cases l <;> rfl

theorem eraseIdx_last_eq_dropLast (l : List Char) (hne : l ≠ []) :
    l.eraseIdx (l.length - 1) = l.dropLast := by
  induction l with
  | nil => exact absurd rfl hne
  | cons a t ih =>
    cases t with
    | nil => rfl
    | cons b t2 =>
      have h1 : (a :: b :: t2).length - 1 = (b :: t2).length - 1 + 1 := by
        simp
      rw [h1]
      show a :: (b :: t2).eraseIdx ((b :: t2).length - 1) = _
      rw [ih (by simp)]
      rfl

/-- `editAdjacentMathTokenWithDelete` on Delete, fully computed: the widget
collapses to its raw text with the first character removed and the caret at
offset 0. -/
theorem editAdjacent_delete_eq (st : EState) (b j : Nat) (tex : List Char)
    (d : Bool) (cs : List Inline)
    (hb : st.tree[b]? = some (ENode.eblock cs))
    (hj : cs[j]? = some (Inline.itoken tex d))
    (hadj : adjacentMathToken st.tree st.caret Dir.next = some (b, j, tex, d)) :
    editAdjacentMathTokenWithDelete false st = some
      ⟨st.tree.set b (ENode.eblock (cs.set j
          (Inline.itext ((mathRawForToken tex d).drop 1)))),
        ⟨CaretContainer.textNode b j, 0⟩⟩ := by
  have hblt : b < st.tree.length := (List.getElem?_eq_some.mp hb).1
  have hjlt : j < cs.length := (List.getElem?_eq_some.mp hj).1
  have hrawpos : 0 < (mathRawForToken tex d).length := by
    rw [mathRaw_length]
    cases d <;> simp [delimiterSize]
  have hexp : expandMathTokenWithOffset st.tree b j tex d 0 =
      ⟨st.tree.set b (ENode.eblock (cs.set j
          (Inline.itext (mathRawForToken tex d)))),
        ⟨CaretContainer.textNode b j, 0⟩⟩ := by
    simp only [expandMathTokenWithOffset, setInlineChild, hb]
    have h0 : boundedOffset (mathRawForToken tex d).length 0 = 0 := by
      simp [boundedOffset]
    rw [h0]
  have hb1 : (st.tree.set b (ENode.eblock (cs.set j
      (Inline.itext (mathRawForToken tex d)))))[b]? =
      some (ENode.eblock (cs.set j (Inline.itext (mathRawForToken tex d)))) :=
    List.getElem?_set_eq hblt
  have hj1 : (cs.set j (Inline.itext (mathRawForToken tex d)))[j]? =
      some (Inline.itext (mathRawForToken tex d)) :=
    List.getElem?_set_eq hjlt
  have hdel : deleteCharInTextNode (st.tree.set b (ENode.eblock (cs.set j
      (Inline.itext (mathRawForToken tex d))))) b j 0 false =
      ⟨st.tree.set b (ENode.eblock (cs.set j
          (Inline.itext ((mathRawForToken tex d).drop 1)))),
        ⟨CaretContainer.textNode b j, 0⟩⟩ := by
    simp only [deleteCharInTextNode, hb1, hj1]
    rw [if_neg (by simp), if_neg (by omega)]
    simp only [setInlineChild, hb1, List.set_set, eraseIdx_zero_eq_drop_one]
  simp only [editAdjacentMathTokenWithDelete, Bool.false_eq_true, ite_false]
  rw [hadj]
  show some (deleteCharInTextNode
      (expandMathTokenWithOffset st.tree b j tex d 0).tree b j 0 false) = _
  rw [hexp]
  exact congrArg some hdel

/-- `editAdjacentMathTokenWithDelete` on Backspace, fully computed: the
widget collapses to its raw text with the last character removed and the
caret just before the removed position. -/
theorem editAdjacent_backspace_eq (st : EState) (b j : Nat) (tex : List Char)
    (d : Bool) (cs : List Inline)
    (hb : st.tree[b]? = some (ENode.eblock cs))
    (hj : cs[j]? = some (Inline.itoken tex d))
    (hadj : adjacentMathToken st.tree st.caret Dir.prev = some (b, j, tex, d)) :
    editAdjacentMathTokenWithDelete true st = some
      ⟨st.tree.set b (ENode.eblock (cs.set j
          (Inline.itext ((mathRawForToken tex d).dropLast)))),
        ⟨CaretContainer.textNode b j, (mathRawForToken tex d).length - 1⟩⟩ := by
  have hblt : b < st.tree.length := (List.getElem?_eq_some.mp hb).1
  have hjlt : j < cs.length := (List.getElem?_eq_some.mp hj).1
  have hrawpos : 0 < (mathRawForToken tex d).length := by
    rw [mathRaw_length]
    cases d <;> simp [delimiterSize]
  have hexp : expandMathTokenWithOffset st.tree b j tex d
      ((mathRawForToken tex d).length : Int) =
      ⟨st.tree.set b (ENode.eblock (cs.set j
          (Inline.itext (mathRawForToken tex d)))),
        ⟨CaretContainer.textNode b j, (mathRawForToken tex d).length⟩⟩ := by
    simp only [expandMathTokenWithOffset, setInlineChild, hb]
    have h0 : boundedOffset (mathRawForToken tex d).length
        ((mathRawForToken tex d).length : Int) = (mathRawForToken tex d).length := by
      simp [boundedOffset]
    rw [h0]
  have hb1 : (st.tree.set b (ENode.eblock (cs.set j
      (Inline.itext (mathRawForToken tex d)))))[b]? =
      some (ENode.eblock (cs.set j (Inline.itext (mathRawForToken tex d)))) :=
    List.getElem?_set_eq hblt
  have hj1 : (cs.set j (Inline.itext (mathRawForToken tex d)))[j]? =
      some (Inline.itext (mathRawForToken tex d)) :=
    List.getElem?_set_eq hjlt
  have hdel : deleteCharInTextNode (st.tree.set b (ENode.eblock (cs.set j
      (Inline.itext (mathRawForToken tex d))))) b j
      (mathRawForToken tex d).length true =
      ⟨st.tree.set b (ENode.eblock (cs.set j
          (Inline.itext ((mathRawForToken tex d).dropLast)))),
        ⟨CaretContainer.textNode b j, (mathRawForToken tex d).length - 1⟩⟩ := by
    simp only [deleteCharInTextNode, hb1, hj1]
    rw [if_pos trivial, if_neg (by omega)]
    simp only [setInlineChild, hb1, List.set_set]
    rw [eraseIdx_last_eq_dropLast _ (by intro h; rw [h] at hrawpos; simp at hrawpos)]
  simp only [editAdjacentMathTokenWithDelete, eq_self_iff_true, ite_true]
  rw [hadj]
  show some (deleteCharInTextNode
      (expandMathTokenWithOffset st.tree b j tex d
        ((mathRawForToken tex d).length : Int)).tree b j
      (mathRawForToken tex d).length true) = _
  rw [hexp]
  exact congrArg some hdel

/-- C3: a boundary-navigation collapse entering from the left edge places
the caret at offset `delimiterSize` (1 inline, 2 block); entering from the
right edge places it at `rawLength − delimiterSize`; every collapse caret
offset is clamped into `[0, rawLength]`; and ArrowRight with the caret just
left of the inline widget `x^2` collapses it and places the caret at offset
1 of `"$x^2$"`. -/
theorem c3_boundary_collapse_offsets :
    (∀ (tree : List ENode) (b j : Nat) (tex : List Char) (display : Bool),
      (expandMathTokenForBoundaryEdit tree b j tex display
          FromSide.fromLeft).caret.offset = delimiterSize display ∧
      (expandMathTokenForBoundaryEdit tree b j tex display
          FromSide.fromRight).caret.offset =
        (mathRawForToken tex display).length - delimiterSize display) ∧
    (∀ (rawLen : Nat) (offset : Int), boundedOffset rawLen offset ≤ rawLen) ∧
    keydown Key.arrowRight
        ⟨[ENode.eblock [Inline.itext (str "a"), Inline.itoken (str "x^2") false,
            Inline.itext (str "b")]],
          ⟨CaretContainer.textNode 0 0, 1⟩⟩ =
      (KeyOutcome.arrowCollapse,
        ⟨[ENode.eblock [Inline.itext (str "a"), Inline.itext (str "$x^2$"),
            Inline.itext (str "b")]],
          ⟨CaretContainer.textNode 0 1, 1⟩⟩) := by
  refine ⟨?_, ?_, by decide⟩
  · intro tree b j tex display
    have hlen := mathRaw_length tex display
    have hds : delimiterSize display ≤ (mathRawForToken tex display).length := by
      omega
    constructor
    · simp only [expandMathTokenForBoundaryEdit, expandMathTokenWithOffset,
        boundedOffset]
      omega
    · simp only [expandMathTokenForBoundaryEdit, expandMathTokenWithOffset,
        boundedOffset]
      omega
  · intro rawLen offset
    simp only [boundedOffset]
    omega

/-- C4: Delete (resp. Backspace) with the caret adjacent to a widget in the
corresponding direction collapses that widget to raw text and deletes
exactly one character at the near end, leaving the caret at the deletion
point, and the keydown handler stops there (outcome `mathEdit` — no block
merge is attempted in the same keystroke).  In particular Delete just left
of inline `"$y$"` leaves raw text `"y$"` with the caret at offset 0. -/
theorem c4_delete_into_widget :
    (∀ (st : EState) (b j : Nat) (tex : List Char) (d : Bool) (cs : List Inline),
      st.tree[b]? = some (ENode.eblock cs) →
      cs[j]? = some (Inline.itoken tex d) →
      adjacentMathToken st.tree st.caret Dir.next = some (b, j, tex, d) →
      keydown Key.delete st =
        (KeyOutcome.mathEdit,
          ⟨st.tree.set b (ENode.eblock (cs.set j
              (Inline.itext ((mathRawForToken tex d).drop 1)))),
            ⟨CaretContainer.textNode b j, 0⟩⟩)) ∧
    (∀ (st : EState) (b j : Nat) (tex : List Char) (d : Bool) (cs : List Inline),
      st.tree[b]? = some (ENode.eblock cs) →
      cs[j]? = some (Inline.itoken tex d) →
      adjacentMathToken st.tree st.caret Dir.prev = some (b, j, tex, d) →
      keydown Key.backspace st =
        (KeyOutcome.mathEdit,
          ⟨st.tree.set b (ENode.eblock (cs.set j
              (Inline.itext ((mathRawForToken tex d).dropLast)))),
            ⟨CaretContainer.textNode b j, (mathRawForToken tex d).length - 1⟩⟩)) ∧
    keydown Key.delete
        ⟨[ENode.eblock [Inline.itext (str "a"), Inline.itoken (str "y") false]],
          ⟨CaretContainer.textNode 0 0, 1⟩⟩ =
      (KeyOutcome.mathEdit,
        ⟨[ENode.eblock [Inline.itext (str "a"), Inline.itext (str "y$")]],
          ⟨CaretContainer.textNode 0 1, 0⟩⟩) := by
  refine ⟨?_, ?_, by decide⟩
  · intro st b j tex d cs hb hj hadj
    show (match editAdjacentMathTokenWithDelete false st with
      | some st' => (KeyOutcome.mathEdit, st')
      | none =>
        if (mergeWithNextEditorBlock st).handled = true then
          (KeyOutcome.mergedNext,
            ⟨(mergeWithNextEditorBlock st).tree, (mergeWithNextEditorBlock st).caret⟩)
        else
          (KeyOutcome.unhandled,
            ⟨(mergeWithNextEditorBlock st).tree, (mergeWithNextEditorBlock st).caret⟩)) = _
    rw [editAdjacent_delete_eq st b j tex d cs hb hj hadj]
  · intro st b j tex d cs hb hj hadj
    show (match editAdjacentMathTokenWithDelete true st with
      | some st' => (KeyOutcome.mathEdit, st')
      | none =>
        if (mergeWithPreviousEditorBlock st).handled = true then
          (KeyOutcome.mergedPrev,
            ⟨(mergeWithPreviousEditorBlock st).tree, (mergeWithPreviousEditorBlock st).caret⟩)
        else
          (KeyOutcome.unhandled,
            ⟨(mergeWithPreviousEditorBlock st).tree, (mergeWithPreviousEditorBlock st).caret⟩)) = _
    rw [editAdjacent_backspace_eq st b j tex d cs hb hj hadj]

/-- Witness for C4: the adjacency hypotheses are satisfiable. -/
theorem c4_delete_into_widget_witness :
    ([ENode.eblock [Inline.itext (str "a"), Inline.itoken (str "y") false]][0]? =
      some (ENode.eblock [Inline.itext (str "a"), Inline.itoken (str "y") false])) ∧
    ([Inline.itext (str "a"), Inline.itoken (str "y") false][1]? =
      some (Inline.itoken (str "y") false)) ∧
    keydown Key.delete
        ⟨[ENode.eblock [Inline.itext (str "a"), Inline.itoken (str "y") false]],
          ⟨CaretContainer.textNode 0 0, 1⟩⟩ =
      (KeyOutcome.mathEdit,
        ⟨[ENode.eblock [Inline.itext (str "a"), Inline.itoken (str "y") false]].set 0
            (ENode.eblock ([Inline.itext (str "a"), Inline.itoken (str "y") false].set 1
              (Inline.itext ((mathRawForToken (str "y") false).drop 1)))),
          ⟨CaretContainer.textNode 0 1, 0⟩⟩) :=
  ⟨by decide, by decide,
    c4_delete_into_widget.1
      ⟨[ENode.eblock [Inline.itext (str "a"), Inline.itoken (str "y") false]],
        ⟨CaretContainer.textNode 0 0, 1⟩⟩
      0 1 (str "y") false [Inline.itext (str "a"), Inline.itoken (str "y") false]
      (by decide) (by decide) (by decide)⟩

/-! ## Claims about block merging -/

/-- `mergeWithPreviousEditorBlock` either reports "not handled" with the
state untouched, or reports handled with a save scheduled. -/
theorem mergePrev_result (st : EState) (r : MergeResult)
    (h : mergeWithPreviousEditorBlock st = r) :
    r = ⟨false, st.tree, st.caret, false⟩ ∨
    (r.handled = true ∧ r.saveScheduled = true) := by
  unfold mergeWithPreviousEditorBlock at h
  repeat' split at h
  all_goals rw [← h]
  all_goals simp

/-- `mergeWithNextEditorBlock` reports "not handled" with the state
untouched, or "not handled" having removed an empty next block element, or
handled with a save scheduled. -/
theorem mergeNext_result (st : EState) (r : MergeResult)
    (h : mergeWithNextEditorBlock st = r) :
    r = ⟨false, st.tree, st.caret, false⟩ ∨
    (∃ j, st.tree[j]? = some (ENode.eblock []) ∧
      r = ⟨false, st.tree.eraseIdx j, st.caret, false⟩) ∨
    (r.handled = true ∧ r.saveScheduled = true) := by
  unfold mergeWithNextEditorBlock at h
  repeat' split at h
  all_goals subst h
  all_goals try exact Or.inl rfl
  all_goals try exact Or.inr (Or.inr ⟨rfl, rfl⟩)
  all_goals refine Or.inr (Or.inl ⟨_, ?_, rfl⟩)
  all_goals rename_i heq hempty
  all_goals rw [List.isEmpty_iff.mp hempty] at heq
  all_goals exact heq

/-- C5: Backspace with the caret collapsed at the start of a block whose
previous non-blank sibling is a block element appends all children of the
caret's block in order to the previous block, removes the emptied block,
and places the caret immediately after the node that was last in the
previous block before the merge (or at the previous block's start if it was
empty; before the element itself if nothing remains).  Blocks `["foo"]`,
`["bar"]` merge into one block `"foobar"` with the caret between the two
texts. -/
theorem c5_merge_previous_block :
    (∀ (st : EState) (i j : Nat) (cur prev : List Inline),
      st.tree[i]? = some (ENode.eblock cur) →
      st.caret = ⟨CaretContainer.blockElem i, 0⟩ →
      previousEditorChildIdx st.tree i = some j →
      st.tree[j]? = some (ENode.eblock prev) →
      mergeWithPreviousEditorBlock st =
        ⟨true, (st.tree.set j (ENode.eblock (prev ++ cur))).eraseIdx i,
          (if prev.isEmpty then
            (if cur.isEmpty then ⟨CaretContainer.editorRoot, j⟩
             else ⟨CaretContainer.blockElem j, 0⟩)
           else ⟨CaretContainer.blockElem j, prev.length⟩), true⟩) ∧
    keydown Key.backspace
        ⟨[ENode.eblock [Inline.itext (str "foo")],
            ENode.eblock [Inline.itext (str "bar")]],
          ⟨CaretContainer.blockElem 1, 0⟩⟩ =
      (KeyOutcome.mergedPrev,
        ⟨[ENode.eblock [Inline.itext (str "foo"), Inline.itext (str "bar")]],
          ⟨CaretContainer.blockElem 0, 1⟩⟩) := by
  refine ⟨?_, by decide⟩
  intro st i j cur prev hb hcaret hp hj
  have hnear : nearestEditorChildIdx st.caret = some i := by rw [hcaret]; rfl
  unfold mergeWithPreviousEditorBlock
  repeat' split
  all_goals simp_all

/-- Witness for C5: the merge hypotheses are satisfiable. -/
theorem c5_merge_previous_block_witness :
    ([ENode.eblock [Inline.itext (str "foo")], ENode.eblock [Inline.itext (str "bar")]][1]? =
      some (ENode.eblock [Inline.itext (str "bar")])) ∧
    previousEditorChildIdx
        [ENode.eblock [Inline.itext (str "foo")], ENode.eblock [Inline.itext (str "bar")]] 1 =
      some 0 ∧
    mergeWithPreviousEditorBlock
        ⟨[ENode.eblock [Inline.itext (str "foo")], ENode.eblock [Inline.itext (str "bar")]],
          ⟨CaretContainer.blockElem 1, 0⟩⟩ =
      ⟨true,
        ([ENode.eblock [Inline.itext (str "foo")],
            ENode.eblock [Inline.itext (str "bar")]].set 0
          (ENode.eblock ([Inline.itext (str "foo")] ++ [Inline.itext (str "bar")]))).eraseIdx 1,
        (if ([Inline.itext (str "foo")] : List Inline).isEmpty then
          (if ([Inline.itext (str "bar")] : List Inline).isEmpty then
            ⟨CaretContainer.editorRoot, 0⟩
           else ⟨CaretContainer.blockElem 0, 0⟩)
         else ⟨CaretContainer.blockElem 0, 1⟩), true⟩ :=
  ⟨by decide, by decide,
    c5_merge_previous_block.1
      ⟨[ENode.eblock [Inline.itext (str "foo")], ENode.eblock [Inline.itext (str "bar")]],
        ⟨CaretContainer.blockElem 1, 0⟩⟩
      1 0 [Inline.itext (str "bar")] [Inline.itext (str "foo")]
      (by decide) (by decide) (by decide) (by decide)⟩

/-- C6 counterexample: Delete at the end of block `["a"]` whose next sibling
is an empty block element returns "not handled" yet removes that empty block
— the tree changes, so the operation is not a no-op deferring to the host. -/
theorem c6_merge_not_handled_counterexample :
    (mergeWithNextEditorBlock
        ⟨[ENode.eblock [Inline.itext (str "a")], ENode.eblock []],
          ⟨CaretContainer.blockElem 0, 1⟩⟩).handled = false ∧
    (mergeWithNextEditorBlock
        ⟨[ENode.eblock [Inline.itext (str "a")], ENode.eblock []],
          ⟨CaretContainer.blockElem 0, 1⟩⟩).tree ≠
      [ENode.eblock [Inline.itext (str "a")], ENode.eblock []] := by
  refine ⟨by decide, by decide⟩

/-- C6 (amended): a "not handled" Backspace merge leaves the tree and caret
unchanged; a "not handled" Delete merge leaves them unchanged except that an
empty next sibling block element may have been removed (the caret is still
untouched); every successful merge schedules a persistence save. -/
theorem c6_merge_no_op_amended :
    (∀ st : EState, (mergeWithPreviousEditorBlock st).handled = false →
      (mergeWithPreviousEditorBlock st).tree = st.tree ∧
      (mergeWithPreviousEditorBlock st).caret = st.caret) ∧
    (∀ st : EState, (mergeWithNextEditorBlock st).handled = false →
      ((mergeWithNextEditorBlock st).tree = st.tree ∨
        ∃ j, st.tree[j]? = some (ENode.eblock []) ∧
          (mergeWithNextEditorBlock st).tree = st.tree.eraseIdx j) ∧
      (mergeWithNextEditorBlock st).caret = st.caret) ∧
    (∀ st : EState, (mergeWithPreviousEditorBlock st).handled = true →
      (mergeWithPreviousEditorBlock st).saveScheduled = true) ∧
    (∀ st : EState, (mergeWithNextEditorBlock st).handled = true →
      (mergeWithNextEditorBlock st).saveScheduled = true) := by
  refine ⟨?_, ?_, ?_, ?_⟩ <;> intro st h
  · rcases mergePrev_result st _ rfl with h2 | h2
    · rw [h2]; exact ⟨rfl, rfl⟩
    · rw [h] at h2; exact absurd h2.1 (by simp)
  · rcases mergeNext_result st _ rfl with h2 | ⟨j, hj, h2⟩ | h2
    · rw [h2]; exact ⟨Or.inl rfl, rfl⟩
    · rw [h2]; exact ⟨Or.inr ⟨j, hj, rfl⟩, rfl⟩
    · rw [h] at h2; exact absurd h2.1 (by simp)
  · rcases mergePrev_result st _ rfl with h2 | h2
    · rw [h2] at h; exact absurd h (by simp)
    · exact h2.2
  · rcases mergeNext_result st _ rfl with h2 | ⟨j, hj, h2⟩ | h2
    · rw [h2] at h; exact absurd h (by simp)
    · rw [h2] at h; exact absurd h (by simp)
    · exact h2.2

/-- Witness for the amended C6 on a state where no previous sibling exists. -/
theorem c6_merge_no_op_witness :
    (mergeWithPreviousEditorBlock
        ⟨[ENode.eblock [Inline.itext (str "a")]], ⟨CaretContainer.blockElem 0, 0⟩⟩).handled
      = false ∧
    (mergeWithPreviousEditorBlock
        ⟨[ENode.eblock [Inline.itext (str "a")]], ⟨CaretContainer.blockElem 0, 0⟩⟩).tree =
      [ENode.eblock [Inline.itext (str "a")]] :=
  ⟨by decide,
    (c6_merge_no_op_amended.1
      ⟨[ENode.eblock [Inline.itext (str "a")]], ⟨CaretContainer.blockElem 0, 0⟩⟩
      (by decide)).1⟩

/-! ## Claims about widget adjacency, export, and preview placement -/

/-- `firstSignificantIdx` finds the first node that is not a zero-length
text node; everything it skips is exactly a zero-length text node. -/
theorem firstSignificantIdx_spec :
    ∀ (cs : List Inline) (k : Nat), firstSignificantIdx cs = some k →
      (∃ x, cs[k]? = some x ∧ isEmptyTextInline x = false) ∧
      (∀ m, m < k → cs[m]? = some (Inline.itext [])) := by
  intro cs
  induction cs with
  | nil => intro k h; exact absurd h (by simp [firstSignificantIdx])
  | cons x rest ih =>
    intro k h
    rw [firstSignificantIdx] at h
    by_cases he : isEmptyTextInline x = true
    · rw [if_pos he] at h
      cases hr : firstSignificantIdx rest with
      | none => rw [hr] at h; exact absurd h (by simp)
      | some k2 =>
        rw [hr] at h
        simp only [Option.map_some'] at h
        injection h with h2
        subst h2
        obtain ⟨⟨y, hy1, hy2⟩, hall⟩ := ih k2 hr
        refine ⟨⟨y, by simpa using hy1, hy2⟩, ?_⟩
        intro m hm
        cases m with
        | zero =>
          cases x with
          | itext s =>
            have hs : s = [] := by
              simpa [isEmptyTextInline, List.isEmpty_iff] using he
            simp [hs]
          | itoken t d => simp [isEmptyTextInline] at he
        | succ m2 =>
          have := hall m2 (by omega)
          simpa using this
    · rw [if_neg he] at h
      injection h with h2
      subst h2
      refine ⟨⟨x, by simp, by simpa using he⟩, ?_⟩
      intro m hm
      exact absurd hm (by omega)

/-- C7 counterexample: the sibling skip uses zero length, not
whitespace-only.  With the caret at the end of `"a"` and a whitespace-only
(but non-empty) text sibling `" "` before the widget, `adjacentMathToken`
returns no widget — the claim says the whitespace-only segment should be
skipped and the widget returned.  With a zero-length sibling it is skipped. -/
theorem c7_adjacent_widget_counterexample :
    isEmptyTextInline (Inline.itext (str " ")) = false ∧
    (trim (str " ")).isEmpty = true ∧
    adjacentMathToken
        [ENode.eblock [Inline.itext (str "a"), Inline.itext (str " "),
          Inline.itoken (str "y") false]]
        ⟨CaretContainer.textNode 0 0, 1⟩ Dir.next = none ∧
    adjacentMathToken
        [ENode.eblock [Inline.itext (str "a"), Inline.itext (str ""),
          Inline.itoken (str "y") false]]
        ⟨CaretContainer.textNode 0 0, 1⟩ Dir.next = some (0, 2, str "y", false) := by
  refine ⟨by decide, by decide, by decide, by decide⟩

/-- C7 (amended): for a text-segment caret `adjacentMathToken` returns a
widget only when the caret sits exactly at the segment's start (prev) or
end (next) edge, and the sibling walk skips exactly the zero-length text
segments (a whitespace-only non-empty segment blocks adjacency); for an
element-anchored caret it returns the child widget at the indicated offset
directly (or none for the previous direction at offset 0). -/
theorem c7_adjacent_widget_amended :
    (∀ (tree : List ENode) (b n off : Nat) (cs : List Inline) (s : List Char)
        (dir : Dir),
      tree[b]? = some (ENode.eblock cs) →
      cs[n]? = some (Inline.itext s) →
      off ≠ (if dir = Dir.next then s.length else 0) →
      adjacentMathToken tree ⟨CaretContainer.textNode b n, off⟩ dir = none) ∧
    (∀ (cs : List Inline) (k : Nat), firstSignificantIdx cs = some k →
      (∃ x, cs[k]? = some x ∧ isEmptyTextInline x = false) ∧
      (∀ m, m < k → cs[m]? = some (Inline.itext []))) ∧
    (∀ (tree : List ENode) (b o : Nat) (cs : List Inline) (tex : List Char)
        (d : Bool),
      tree[b]? = some (ENode.eblock cs) →
      cs[o]? = some (Inline.itoken tex d) →
      adjacentMathToken tree ⟨CaretContainer.blockElem b, o⟩ Dir.next =
        some (b, o, tex, d)) ∧
    (∀ (tree : List ENode) (b o : Nat) (cs : List Inline) (tex : List Char)
        (d : Bool),
      tree[b]? = some (ENode.eblock cs) → 0 < o →
      cs[o - 1]? = some (Inline.itoken tex d) →
      adjacentMathToken tree ⟨CaretContainer.blockElem b, o⟩ Dir.prev =
        some (b, o - 1, tex, d)) ∧
    (∀ (tree : List ENode) (b : Nat),
      adjacentMathToken tree ⟨CaretContainer.blockElem b, 0⟩ Dir.prev = none) := by
  refine ⟨?_, firstSignificantIdx_spec, ?_, ?_, ?_⟩
  · intro tree b n off cs s dir hb hn hoff
    unfold adjacentMathToken
    repeat' split
    all_goals simp_all
  · intro tree b o cs tex d hb ho
    unfold adjacentMathToken
    repeat' split
    all_goals simp_all
    all_goals
      rename_i hcontra
      exact Bool.noConfusion (((hcontra tex).1 rfl).symm.trans ((hcontra tex).2 rfl))
  · intro tree b o cs tex d hb hpos ho
    unfold adjacentMathToken
    repeat' split
    all_goals simp_all
    all_goals
      rename_i hcontra
      exact Bool.noConfusion (((hcontra tex).1 rfl).symm.trans ((hcontra tex).2 rfl))
  · intro tree b
    unfold adjacentMathToken
    repeat' split
    all_goals simp_all

/-- Witness for the amended C7: the edge-only hypothesis is satisfiable. -/
theorem c7_adjacent_widget_witness :
    adjacentMathToken
        [ENode.eblock [Inline.itext (str "ab"), Inline.itoken (str "y") false]]
        ⟨CaretContainer.textNode 0 0, 1⟩ Dir.next = none :=
  c7_adjacent_widget_amended.1
    [ENode.eblock [Inline.itext (str "ab"), Inline.itoken (str "y") false]]
    0 0 1 [Inline.itext (str "ab"), Inline.itoken (str "y") false] (str "ab")
    Dir.next (by decide) (by decide) (by decide)

/-- C8 counterexample: at export time `exportMarkdown` replaces every widget
with plain text `$$tex$$` / `$tex$` before the serializer runs, so a display
widget is NOT substituted as `\n\n$$\n{tex}\n$$\n\n` (that form is only the
— then unreachable — turndown rule). -/
theorem c8_export_substitution_counterexample :
    exportPrepareBlock [Inline.itoken (str "x") true] =
      [Inline.itext (str "$$x$$")] ∧
    turndownMathRuleReplacement (str "x") true = str "\n\n$$\nx\n$$\n\n" ∧
    exportTokenReplacement (str "x") true ≠ turndownMathRuleReplacement (str "x") true := by
  refine ⟨by decide, by decide, by decide⟩

/-- C8 (amended): the supplied turndown rule substitutes
`\n\n$$\n{tex}\n$$\n\n` (display) / `${tex}$` (inline), but `exportMarkdown`
first replaces every widget with the plain text `$$tex$$` / `$tex$`, leaving
no widget for the rule to match, so exported markup uses the compact
`$$tex$$` form for display widgets; the two substitutions agree on inline
widgets. -/
theorem c8_export_substitution_amended :
    (∀ tex : List Char,
      exportTokenReplacement tex false = turndownMathRuleReplacement tex false) ∧
    (∀ tex : List Char,
      exportTokenReplacement tex true = str "$$" ++ tex ++ str "$$") ∧
    (∀ tex : List Char,
      turndownMathRuleReplacement tex true = str "\n\n$$\n" ++ tex ++ str "\n$$\n\n") ∧
    (∀ (cs : List Inline), ∀ x ∈ exportPrepareBlock cs,
      isMathTokenInline x = false) := by
  refine ⟨fun tex => rfl, fun tex => by simp [exportTokenReplacement, str],
    fun tex => rfl, ?_⟩
  intro cs x hx
  rw [exportPrepareBlock, List.mem_map] at hx
  obtain ⟨y, _, hy⟩ := hx
  cases y with
  | itext s => rw [← hy]; rfl
  | itoken tex d => rw [← hy]; rfl

/-- Witness for the amended C8: the membership hypothesis is satisfiable. -/
theorem c8_export_substitution_witness :
    Inline.itext (str "$$x$$") ∈ exportPrepareBlock [Inline.itoken (str "x") true] ∧
    isMathTokenInline (Inline.itext (str "$$x$$")) = false :=
  ⟨by decide,
    c8_export_substitution_amended.2.2.2 [Inline.itoken (str "x") true]
      (Inline.itext (str "$$x$$")) (by decide)⟩

/-- C9 counterexample: when the panel flips below the caret, the below
placement is additionally clamped to an 8-unit bottom margin, so the top is
not always `caretBottom + 12`: with caret rectangle top 20 / bottom 50,
viewport height 200 and panel height 150, the flip is taken (20 − 150 − 10
< 8) but the panel lands at 42, not 62. -/
theorem c9_preview_placement_counterexample :
    ((20 : Int) - 150 - 10 < 8) ∧
    previewTop 20 50 200 150 = 42 ∧
    previewTop 20 50 200 150 ≠ 50 + 12 := by
  refine ⟨by decide, by decide, by decide⟩

/-- C9 (amended): the horizontal position is the caret's left coordinate
clamped to the viewport with an 8-unit margin on each side; vertically the
panel sits above the caret rectangle with a 10-unit gap, except that when
fewer than 8 units would remain above, it is placed below with a 12-unit
gap, further clamped so at least an 8-unit margin remains at the bottom of
the viewport. -/
theorem c9_preview_placement_amended :
    (∀ cl w pw : Int, pw + 16 ≤ w →
      8 ≤ previewLeft cl w pw ∧ previewLeft cl w pw + pw + 8 ≤ w ∧
      (8 ≤ cl → cl + pw + 8 ≤ w → previewLeft cl w pw = cl)) ∧
    (∀ ct cb h ph : Int, 8 ≤ ct - ph - 10 →
      previewTop ct cb h ph = ct - ph - 10) ∧
    (∀ ct cb h ph : Int, ct - ph - 10 < 8 → cb + 12 ≤ h - ph - 8 →
      previewTop ct cb h ph = cb + 12) ∧
    (∀ ct cb h ph : Int, ct - ph - 10 < 8 →
      previewTop ct cb h ph ≤ h - ph - 8) := by
  refine ⟨?_, ?_, ?_, ?_⟩
  · intro cl w pw hw
    unfold previewLeft
    refine ⟨by omega, by omega, ?_⟩
    intro h1 h2
    omega
  · intro ct cb h ph hroom
    unfold previewTop
    rw [if_neg (by omega)]
  · intro ct cb h ph hflip hfit
    unfold previewTop
    rw [if_pos (by omega)]
    omega
  · intro ct cb h ph hflip
    unfold previewTop
    rw [if_pos (by omega)]
    omega

/-- Witness for the amended C9 on concrete coordinates. -/
theorem c9_preview_placement_witness :
    ((8 : Int) ≤ 200 - 100 - 10) ∧ previewTop 200 210 400 100 = 200 - 100 - 10 :=
  ⟨by decide, c9_preview_placement_amended.2.1 200 210 400 100 (by decide)⟩

end TyporaClone
